import Mathlib

/-
Verification development for deepclean (src/main.rs): a shallow embedding of the
pattern/match/clean engine, the subprocess runner, the directory walker loop and
the argument parsing, together with theorems settling the specification claims.
-/

set_option maxRecDepth 4096

namespace Deepclean

/-- File type of a directory entry, as classified by the file_type() calls in main.rs:
plain file (is_file), directory (is_dir), or anything else (sockets, symlinks, devices). -/
inductive FType
| file
| dir
| other
deriving DecidableEq, Repr

/-- One directory entry as seen by main.rs: the child name (file_name().to_string_lossy())
and its file type. -/
structure DirEntry where
  name : String
  ty : FType
deriving DecidableEq, Repr

/-- Exit status of a spawned process, mirroring std::process::ExitStatus: either a normal
exit with a code, or termination by a signal (in which case code() is None). -/
inductive ExitStatus
| exited (code : Int)
| signaled (sig : Nat)
deriving DecidableEq, Repr

/-- ExitStatus::code(): Some code for a normal exit, None for a signal. -/
def ExitStatus.code : ExitStatus → Option Int
| .exited c => some c
| .signaled _ => none

/-- ExitStatus::success(): true exactly when the process exited with code 0. -/
def ExitStatus.success : ExitStatus → Bool
| .exited 0 => true
| _ => false

/-- The io::Error values relevant to main.rs: the ErrorKind::TimedOut error constructed in
run_command, and every other kind of I/O error (permission denied, spawn failure, ...). -/
inductive IOErr
| timedOut (msg : String)
| otherErr (msg : String)
deriving DecidableEq, Repr

/-- run_command from main.rs. The spawn of the wrapped command
(timeout --kill-after=5s 10s sh -x -c CMD, run in the candidate directory) is modelled by
its observed outcome: either an io error from spawning, or the observed ExitStatus of the
timeout wrapper. run_command converts an observed exit code of 124 into a TimedOut error
and passes every other outcome through. -/
def run_command (observed : Except IOErr ExitStatus) : Except IOErr ExitStatus :=
match observed with
| .error e => .error e
| .ok st =>
    if st.code = some 124 then .error (.timedOut "Command timed out (10s)")
    else .ok st

/-- Modelled from the spec: the behavior of the external timeout(1) utility that run_command
wraps every command in (not part of this repository). A command is described by its
wall-clock duration in seconds and the status it exits with when allowed to finish. -/
structure CmdBehavior where
  duration : Nat
  result : ExitStatus
deriving DecidableEq, Repr

/-- Modelled from the spec: timeout LIMIT CMD terminates CMD once its duration exceeds the
limit and then itself exits with status 124; otherwise CMD's own exit status is reported. -/
def timeoutWrapper (limit : Nat) (b : CmdBehavior) : ExitStatus :=
if limit < b.duration then .exited 124 else b.result

/-- Abstract syntax of the regex dialect used by the built-in rules in main.rs:
literal characters, the dot metacharacter, character classes such as [co], alternation,
concatenation, Kleene star, and the anchors added by str_to_regex. -/
inductive Re
| zero
| eps
| chr (c : Char)
| dotAny
| cls (cs : List Char)
| alt (a b : Re)
| cat (a b : Re)
| star (a : Re)
| bol
| eol
deriving DecidableEq, Repr

/-- Whether the regex accepts the empty string (anchors, being position conditions,
accept nothing in the position-free reading used by the executable matcher; the
compiled patterns only ever apply the matcher to anchor-free regexes). -/
def Re.nullable : Re → Bool
| .zero => false
| .eps => true
| .chr _ => false
| .dotAny => false
| .cls _ => false
| .alt a b => a.nullable || b.nullable
| .cat a b => a.nullable && b.nullable
| .star _ => true
| .bol => false
| .eol => false

/-- Brzozowski derivative of a regex by one character. -/
def Re.deriv : Re → Char → Re
| .zero, _ => .zero
| .eps, _ => .zero
| .chr c, x => if x = c then .eps else .zero
| .dotAny, _ => .eps
| .cls cs, x => if cs.contains x then .eps else .zero
| .alt a b, x => .alt (a.deriv x) (b.deriv x)
| .cat a b, x => if a.nullable then .alt (.cat (a.deriv x) b) (b.deriv x) else .cat (a.deriv x) b
| .star a, x => .cat (a.deriv x) (.star a)
| .bol, _ => .zero
| .eol, _ => .zero

/-- Executable whole-list regex matching by repeated derivatives. -/
def Re.matchList : Re → List Char → Bool
| r, [] => r.nullable
| r, c :: cs => (r.deriv c).matchList cs

/-- Executable whole-string regex matching. -/
def matchE (r : Re) (s : String) : Bool := r.matchList s.toList

/-- Exact-match semantics of an anchor-free regex: EM r l holds when r matches precisely
the character list l. Anchors have no constructor here: in a position-free reading they
denote the empty language (the positional semantics Sp below gives them their meaning). -/
inductive EM : Re → List Char → Prop
| eps : EM .eps []
| chr (c : Char) : EM (.chr c) [c]
| dotAny (c : Char) : EM .dotAny [c]
| cls {cs : List Char} {c : Char} (h : c ∈ cs) : EM (.cls cs) [c]
| altL {a b : Re} {l : List Char} (h : EM a l) : EM (.alt a b) l
| altR {a b : Re} {l : List Char} (h : EM b l) : EM (.alt a b) l
| cat {a b : Re} {l1 l2 : List Char} (h1 : EM a l1) (h2 : EM b l2) : EM (.cat a b) (l1 ++ l2)
| starNil {a : Re} : EM (.star a) []
| starCons {a : Re} {l1 l2 : List Char} (h1 : EM a l1) (hne : l1 ≠ []) (h2 : EM (.star a) l2) :
    EM (.star a) (l1 ++ l2)

theorem em_alt_inv {a b : Re} {l : List Char} (h : EM (.alt a b) l) : EM a l ∨ EM b l := by
  cases h with
  | altL h => exact Or.inl h
  | altR h => exact Or.inr h

theorem em_cat_inv {a b : Re} {l : List Char} (h : EM (.cat a b) l) :
    ∃ l1 l2, l = l1 ++ l2 ∧ EM a l1 ∧ EM b l2 := by
  cases h with
  | cat h1 h2 => exact ⟨_, _, rfl, h1, h2⟩

theorem em_star_inv {a : Re} {l : List Char} (h : EM (.star a) l) :
    l = [] ∨ ∃ l1 l2, l = l1 ++ l2 ∧ l1 ≠ [] ∧ EM a l1 ∧ EM (.star a) l2 := by
  cases h with
  | starNil => exact Or.inl rfl
  | starCons h1 hne h2 => exact Or.inr ⟨_, _, rfl, hne, h1, h2⟩

theorem nullable_iff (r : Re) : r.nullable = true ↔ EM r [] := by
  induction r with
  | zero => exact ⟨fun h => by simp [Re.nullable] at h, fun h => by cases h⟩
  | eps => exact ⟨fun _ => EM.eps, fun _ => rfl⟩
  | chr c => exact ⟨fun h => by simp [Re.nullable] at h, fun h => by cases h⟩
  | dotAny => exact ⟨fun h => by simp [Re.nullable] at h, fun h => by cases h⟩
  | cls cs => exact ⟨fun h => by simp [Re.nullable] at h, fun h => by cases h⟩
  | alt a b iha ihb =>
    constructor
    · intro h
      rcases Bool.or_eq_true_iff.mp h with h1 | h1
      · exact EM.altL (iha.mp h1)
      · exact EM.altR (ihb.mp h1)
    · intro h
      rcases em_alt_inv h with h1 | h1
      · exact Bool.or_eq_true_iff.mpr (Or.inl (iha.mpr h1))
      · exact Bool.or_eq_true_iff.mpr (Or.inr (ihb.mpr h1))
  | cat a b iha ihb =>
    constructor
    · intro h
      have h2 := Bool.and_eq_true_iff.mp h
      simpa using EM.cat (iha.mp h2.1) (ihb.mp h2.2)
    · intro h
      rcases em_cat_inv h with ⟨l1, l2, heq, h1, h2⟩
      have h0 : l1 = [] ∧ l2 = [] := List.append_eq_nil.mp heq.symm
      exact Bool.and_eq_true_iff.mpr ⟨iha.mpr (h0.1 ▸ h1), ihb.mpr (h0.2 ▸ h2)⟩
  | star a iha => exact ⟨fun _ => EM.starNil, fun _ => rfl⟩
  | bol => exact ⟨fun h => by simp [Re.nullable] at h, fun h => by cases h⟩
  | eol => exact ⟨fun h => by simp [Re.nullable] at h, fun h => by cases h⟩

theorem cons_eq_append_split {c : Char} {l l1 l2 : List Char} (h : c :: l = l1 ++ l2) :
    (l1 = [] ∧ l2 = c :: l) ∨ ∃ l1', l1 = c :: l1' ∧ l = l1' ++ l2 := by
  cases l1 with
  | nil => exact Or.inl ⟨rfl, by simpa using h.symm⟩
  | cons x xs =>
    simp only [List.cons_append, List.cons.injEq] at h
    exact Or.inr ⟨xs, by rw [h.1], h.2⟩

theorem deriv_iff (r : Re) (c : Char) : ∀ l : List Char, EM (r.deriv c) l ↔ EM r (c :: l) := by
  induction r with
  | zero => intro l; exact ⟨(fun h => by cases h), (fun h => by cases h)⟩
  | eps => intro l; exact ⟨(fun h => by cases h), (fun h => by cases h)⟩
  | chr c' =>
    intro l
    constructor
    · intro h
      rw [Re.deriv] at h
      by_cases hc : c = c'
      · rw [if_pos hc] at h
        cases h
        rw [hc]
        exact EM.chr c'
      · rw [if_neg hc] at h
        cases h
    · intro h
      cases h
      rw [Re.deriv, if_pos rfl]
      exact EM.eps
  | dotAny =>
    intro l
    constructor
    · intro h
      rw [Re.deriv] at h
      cases h
      exact EM.dotAny c
    · intro h
      cases h
      exact EM.eps
  | cls cs =>
    intro l
    constructor
    · intro h
      rw [Re.deriv] at h
      by_cases hc : cs.contains c
      · rw [if_pos hc] at h
        cases h
        exact EM.cls (List.mem_of_elem_eq_true hc)
      · rw [if_neg hc] at h
        cases h
    · intro h
      cases h with
      | cls hm =>
        rw [Re.deriv, if_pos (List.elem_eq_true_of_mem hm)]
        exact EM.eps
  | alt a b iha ihb =>
    intro l
    constructor
    · intro h
      rcases em_alt_inv h with h1 | h1
      · exact EM.altL ((iha l).mp h1)
      · exact EM.altR ((ihb l).mp h1)
    · intro h
      rcases em_alt_inv h with h1 | h1
      · exact EM.altL ((iha l).mpr h1)
      · exact EM.altR ((ihb l).mpr h1)
  | cat a b iha ihb =>
    intro l
    rw [Re.deriv]
    by_cases hn : a.nullable = true
    · rw [if_pos hn]
      constructor
      · intro h
        rcases em_alt_inv h with h1 | h1
        · rcases em_cat_inv h1 with ⟨l1, l2, heq, hd, hb⟩
          have := EM.cat ((iha l1).mp hd) hb
          simpa [heq] using this
        · have := EM.cat ((nullable_iff a).mp hn) ((ihb l).mp h1)
          simpa using this
      · intro h
        rcases em_cat_inv h with ⟨l1, l2, heq, ha', hb⟩
        rcases cons_eq_append_split heq with ⟨h1, h2⟩ | ⟨l1', h1, h2⟩
        · exact EM.altR ((ihb l).mpr (h2 ▸ hb))
        · exact EM.altL (h2 ▸ EM.cat ((iha l1').mpr (h1 ▸ ha')) hb)
    · rw [if_neg hn]
      constructor
      · intro h
        rcases em_cat_inv h with ⟨l1, l2, heq, hd, hb⟩
        have := EM.cat ((iha l1).mp hd) hb
        simpa [heq] using this
      · intro h
        rcases em_cat_inv h with ⟨l1, l2, heq, ha', hb⟩
        rcases cons_eq_append_split heq with ⟨h1, h2⟩ | ⟨l1', h1, h2⟩
        · exact absurd ((nullable_iff a).mpr (h1 ▸ ha')) hn
        · exact h2 ▸ EM.cat ((iha l1').mpr (h1 ▸ ha')) hb
  | star a iha =>
    intro l
    rw [Re.deriv]
    constructor
    · intro h
      rcases em_cat_inv h with ⟨l1, l2, heq, hd, hs⟩
      have := EM.starCons ((iha l1).mp hd) (by simp) hs
      simpa [heq] using this
    · intro h
      rcases em_star_inv h with h1 | ⟨l1, l2, heq, hne, ha', hs⟩
      · exact absurd h1 (by simp)
      · rcases cons_eq_append_split heq with ⟨h1, _⟩ | ⟨l1', h1, h2⟩
        · exact absurd h1 hne
        · exact h2 ▸ EM.cat ((iha l1').mpr (h1 ▸ ha')) hs
  | bol => intro l; exact ⟨(fun h => by cases h), (fun h => by cases h)⟩
  | eol => intro l; exact ⟨(fun h => by cases h), (fun h => by cases h)⟩

theorem matchList_iff (r : Re) (l : List Char) : r.matchList l = true ↔ EM r l := by
  induction l generalizing r with
  | nil => exact nullable_iff r
  | cons c cs ih => exact (ih (r.deriv c)).trans (deriv_iff r c cs)

theorem matchE_iff (r : Re) (s : String) : matchE r s = true ↔ EM r s.toList :=
  matchList_iff r s.toList

/-- Positional semantics of a regex over a fixed subject: Sp full r i j holds when r
matches the span of full from position i (inclusive) to j (exclusive). This is the
semantics of searching as Regex::is_match does (a match may start anywhere), and it
is what gives the anchors their meaning: caret matches the empty span at position 0,
dollar the empty span at the end of the subject. -/
inductive Sp (full : List Char) : Re → Nat → Nat → Prop
| eps {i : Nat} (h : i ≤ full.length) : Sp full .eps i i
| chr {c : Char} {i : Nat} (h : full[i]? = some c) : Sp full (.chr c) i (i + 1)
| dotAny {c : Char} {i : Nat} (h : full[i]? = some c) : Sp full .dotAny i (i + 1)
| cls {cs : List Char} {c : Char} {i : Nat} (h : full[i]? = some c) (hc : c ∈ cs) :
    Sp full (.cls cs) i (i + 1)
| altL {a b : Re} {i j : Nat} (h : Sp full a i j) : Sp full (.alt a b) i j
| altR {a b : Re} {i j : Nat} (h : Sp full b i j) : Sp full (.alt a b) i j
| cat {a b : Re} {i j k : Nat} (h1 : Sp full a i j) (h2 : Sp full b j k) : Sp full (.cat a b) i k
| starNil {a : Re} {i : Nat} (h : i ≤ full.length) : Sp full (.star a) i i
| starCons {a : Re} {i j k : Nat} (h1 : Sp full a i j) (hlt : i < j) (h2 : Sp full (.star a) j k) :
    Sp full (.star a) i k
| bol : Sp full .bol 0 0
| eol : Sp full .eol full.length full.length

/-- A regex built without anchors (every pattern declared by the built-in rules is). -/
def Re.noAnchor : Re → Bool
| .zero => true
| .eps => true
| .chr _ => true
| .dotAny => true
| .cls _ => true
| .alt a b => a.noAnchor && b.noAnchor
| .cat a b => a.noAnchor && b.noAnchor
| .star a => a.noAnchor
| .bol => false
| .eol => false

/-- str_to_regex from main.rs at the regex-syntax level: the declared pattern is wrapped
in a whole-subject anchor pair, caret then the (semantically transparent) group, then
dollar, so the compiled regex is bol concatenated with r concatenated with eol. -/
def str_to_regex (r : Re) : Re := .cat .bol (.cat r .eol)

/-- Regex::is_match semantics: the regex matches some span of the subject. -/
def isMatchSem (r : Re) (s : String) : Prop := ∃ i j, Sp s.toList r i j

theorem sp_bounds {full : List Char} {r : Re} {i j : Nat} (h : Sp full r i j) :
    i ≤ j ∧ j ≤ full.length := by
  induction h with
  | eps h => exact ⟨le_refl _, h⟩
  | chr h =>
    have := List.getElem?_eq_some_iff.mp h
    exact ⟨Nat.le_succ _, this.1⟩
  | dotAny h =>
    have := List.getElem?_eq_some_iff.mp h
    exact ⟨Nat.le_succ _, this.1⟩
  | cls h hc =>
    have := List.getElem?_eq_some_iff.mp h
    exact ⟨Nat.le_succ _, this.1⟩
  | altL h ih => exact ih
  | altR h ih => exact ih
  | cat h1 h2 ih1 ih2 => exact ⟨le_trans ih1.1 ih2.1, ih2.2⟩
  | starNil h => exact ⟨le_refl _, h⟩
  | starCons h1 hlt h2 ih1 ih2 => exact ⟨le_trans ih1.1 ih2.1, ih2.2⟩
  | bol => exact ⟨le_refl _, Nat.zero_le _⟩
  | eol => exact ⟨le_refl _, le_refl _⟩

/-- The whole-subject consequence of anchoring: a span matched by a str_to_regex-compiled
pattern is necessarily the entire subject, and the inner pattern matches all of it. -/
theorem sp_str_to_regex {full : List Char} {r : Re} {i j : Nat}
    (h : Sp full (str_to_regex r) i j) : i = 0 ∧ j = full.length ∧ Sp full r 0 full.length := by
  cases h with
  | cat h1 h2 =>
    cases h1
    cases h2 with
    | cat hr he =>
      cases he
      exact ⟨rfl, rfl, hr⟩

theorem em_to_sp {r : Re} {seg : List Char} (h : EM r seg) :
    ∀ (full : List Char) (i : Nat) (post : List Char),
      full.drop i = seg ++ post → i ≤ full.length → Sp full r i (i + seg.length) := by
  induction h with
  | eps => intro full i post hdrop hi; simpa using Sp.eps hi
  | chr c =>
    intro full i post hdrop hi
    have hget : full[i]? = some c := by
      have h0 : (full.drop i)[0]? = some c := by rw [hdrop]; simp
      rwa [List.getElem?_drop, Nat.add_zero] at h0
    simpa using Sp.chr hget
  | dotAny c =>
    intro full i post hdrop hi
    have hget : full[i]? = some c := by
      have h0 : (full.drop i)[0]? = some c := by rw [hdrop]; simp
      rwa [List.getElem?_drop, Nat.add_zero] at h0
    simpa using Sp.dotAny hget
  | cls hc =>
    intro full i post hdrop hi
    rename_i cs c
    have hget : full[i]? = some c := by
      have h0 : (full.drop i)[0]? = some c := by rw [hdrop]; simp
      rwa [List.getElem?_drop, Nat.add_zero] at h0
    simpa using Sp.cls hget hc
  | altL h ih =>
    intro full i post hdrop hi
    exact Sp.altL (ih full i post hdrop hi)
  | altR h ih =>
    intro full i post hdrop hi
    exact Sp.altR (ih full i post hdrop hi)
  | cat h1 h2 ih1 ih2 =>
    intro full i post hdrop hi
    rename_i a b l1 l2
    rw [List.append_assoc] at hdrop
    have hd2 : full.drop (i + l1.length) = l2 ++ post := by
      have hcomm : full.drop (i + l1.length) = (full.drop i).drop l1.length := by
        rw [List.drop_drop, Nat.add_comm]
      rw [hcomm, hdrop, List.drop_left]
    have hlen : i + l1.length ≤ full.length := by
      have h1 : l1.length ≤ (full.drop i).length := by
        rw [hdrop, List.length_append]; omega
      rw [List.length_drop] at h1
      omega
    have s1 := ih1 full i (l2 ++ post) hdrop hi
    have s2 := ih2 full (i + l1.length) post hd2 hlen
    have := Sp.cat s1 s2
    rw [List.length_append]
    rw [← Nat.add_assoc]
    exact this
  | starNil => intro full i post hdrop hi; simpa using Sp.starNil hi
  | starCons h1 hne h2 ih1 ih2 =>
    intro full i post hdrop hi
    rename_i a l1 l2
    rw [List.append_assoc] at hdrop
    have hd2 : full.drop (i + l1.length) = l2 ++ post := by
      have hcomm : full.drop (i + l1.length) = (full.drop i).drop l1.length := by
        rw [List.drop_drop, Nat.add_comm]
      rw [hcomm, hdrop, List.drop_left]
    have hlen : i + l1.length ≤ full.length := by
      have h1 : l1.length ≤ (full.drop i).length := by
        rw [hdrop, List.length_append]; omega
      rw [List.length_drop] at h1
      omega
    have s1 := ih1 full i (l2 ++ post) hdrop hi
    have s2 := ih2 full (i + l1.length) post hd2 hlen
    have hlt : i < i + l1.length := by
      have : l1.length ≠ 0 := fun h0 => hne (List.length_eq_zero.mp h0)
      omega
    have := Sp.starCons s1 hlt s2
    rw [List.length_append, ← Nat.add_assoc]
    exact this

theorem sp_to_em {full : List Char} {r : Re} {i j : Nat} (h : Sp full r i j) :
    r.noAnchor = true → EM r ((full.drop i).take (j - i)) := by
  induction h with
  | eps h => intro hA; simpa using EM.eps
  | chr h =>
    intro hA
    rename_i c i
    rcases List.getElem?_eq_some_iff.mp h with ⟨hi, hv⟩
    have hd : full.drop i = c :: full.drop (i + 1) := by
      rw [List.drop_eq_getElem_cons hi, hv]
    simpa [hd, show i + 1 - i = 1 from by omega] using EM.chr c
  | dotAny h =>
    intro hA
    rename_i c i
    rcases List.getElem?_eq_some_iff.mp h with ⟨hi, hv⟩
    have hd : full.drop i = c :: full.drop (i + 1) := by
      rw [List.drop_eq_getElem_cons hi, hv]
    simpa [hd, show i + 1 - i = 1 from by omega] using EM.dotAny c
  | cls h hc =>
    intro hA
    rename_i cs c i
    rcases List.getElem?_eq_some_iff.mp h with ⟨hi, hv⟩
    have hd : full.drop i = c :: full.drop (i + 1) := by
      rw [List.drop_eq_getElem_cons hi, hv]
    simpa [hd, show i + 1 - i = 1 from by omega] using EM.cls hc
  | altL h ih =>
    intro hA
    rcases Bool.and_eq_true_iff.mp hA with ⟨hA1, _⟩
    exact EM.altL (ih hA1)
  | altR h ih =>
    intro hA
    rcases Bool.and_eq_true_iff.mp hA with ⟨_, hA2⟩
    exact EM.altR (ih hA2)
  | cat h1 h2 ih1 ih2 =>
    intro hA
    rename_i a b i j k
    rcases Bool.and_eq_true_iff.mp hA with ⟨hA1, hA2⟩
    have hb1 := sp_bounds h1
    have hb2 := sp_bounds h2
    have hsplit : (full.drop i).take (k - i) =
        (full.drop i).take (j - i) ++ (full.drop j).take (k - j) := by
      have hk : k - i = (j - i) + (k - j) := by omega
      rw [hk, List.take_add]
      have hdd : (full.drop i).drop (j - i) = full.drop j := by
        rw [List.drop_drop]
        have hji : i + (j - i) = j := by omega
        rw [hji]
      rw [hdd]
    rw [hsplit]
    exact EM.cat (ih1 hA1) (ih2 hA2)
  | starNil h => intro hA; simpa using EM.starNil
  | starCons h1 hlt h2 ih1 ih2 =>
    intro hA
    rename_i a i j k
    have hb1 := sp_bounds h1
    have hb2 := sp_bounds h2
    have hsplit : (full.drop i).take (k - i) =
        (full.drop i).take (j - i) ++ (full.drop j).take (k - j) := by
      have hk : k - i = (j - i) + (k - j) := by omega
      rw [hk, List.take_add]
      have hdd : (full.drop i).drop (j - i) = full.drop j := by
        rw [List.drop_drop]
        have hji : i + (j - i) = j := by omega
        rw [hji]
      rw [hdd]
    rw [hsplit]
    refine EM.starCons (ih1 hA) ?_ (ih2 hA)
    have hlen : ((full.drop i).take (j - i)).length = j - i := by
      rw [List.length_take, List.length_drop]
      omega
    intro hnil
    rw [hnil] at hlen
    simp at hlen
    omega
  | bol => intro hA; simp [Re.noAnchor] at hA
  | eol => intro hA; simp [Re.noAnchor] at hA

/-- Anchored search equals executable whole-subject matching: Regex::is_match with the
compiled pattern str_to_regex r succeeds on a subject exactly when the declared
anchor-free pattern r matches the entire subject, which matchE computes. -/
theorem is_match_str_to_regex (r : Re) (hA : r.noAnchor = true) (s : String) :
    isMatchSem (str_to_regex r) s ↔ matchE r s = true := by
  constructor
  · rintro ⟨i, j, h⟩
    rcases sp_str_to_regex h with ⟨hi, hj, hr⟩
    have := sp_to_em hr hA
    rw [matchE_iff]
    rw [List.drop_zero, Nat.sub_zero, List.take_length] at this
    exact this
  · intro h
    have hEM := (matchE_iff r s).mp h
    have hsp := em_to_sp hEM s.toList 0 [] (by simp) (by simp)
    exact ⟨0, s.toList.length, Sp.cat Sp.bol (Sp.cat (by simpa using hsp) Sp.eol)⟩

/-- A regex literal: the concatenation of the characters of s, each a literal character. -/
def litRe (s : String) : Re := s.toList.foldr (fun c r => Re.cat (.chr c) r) .eps

/-- Declared pattern string of the built Rust project rule for files: Cargo.toml, where the
unescaped dot is the any-character metacharacter. -/
def cargoTomlRe : Re := .cat (litRe "Cargo") (.cat .dotAny (litRe "toml"))

/-- Declared pattern string of the built Rust project rule for dirs: target. -/
def targetRe : Re := litRe "target"

/-- Declared pattern string of the Makefile rule: an alternation of Makefile and makefile. -/
def makefileRe : Re := .alt (litRe "Makefile") (litRe "makefile")

/-- Declared pattern string of the pycache rule for dirs. -/
def pycacheRe : Re := litRe "__pycache__"

/-- Declared pattern string of the compiled python rule: dot-star, an escaped (literal) dot,
the literal py, then the class [co]. -/
def compiledPyRe : Re :=
  .cat (.star .dotAny) (.cat (.chr '.') (.cat (litRe "py") (.cls ['c', 'o'])))

/-- Declared pattern string of the git repo rule for dirs: .git, where the unescaped dot is
the any-character metacharacter. -/
def dotGitRe : Re := .cat .dotAny (litRe "git")

/-- Declared pattern string of the ninja rule: build.ninja, where the unescaped dot is the
any-character metacharacter. -/
def buildNinjaRe : Re := .cat (litRe "build") (.cat .dotAny (litRe "ninja"))

/-- The name matcher denoted by a compiled pattern: by is_match_str_to_regex, testing a
name against the compiled str_to_regex r succeeds exactly when the declared pattern r
matches the whole name, which matchE computes. -/
def compiledMatcher (r : Re) : String → Bool := fun s => matchE r s

/-- Pattern from main.rs: a rule's display name, its required file-name matchers and
required dir-name matchers (each matcher being the compiled form of a declared regex,
queried through Regex::is_match on a child name), its check commands and clean commands. -/
structure Pattern where
  name : String
  files_exist : List (String → Bool)
  dirs_exist : List (String → Bool)
  check_commands : List String
  clean_commands : List String

/-- The name_matches closure of Pattern::match_dir: whether matcher m accepts the name. -/
def nameMatches (name : String) (m : String → Bool) : Bool := m name

/-- One iteration of the entry loop of Pattern::match_dir: an entry that is neither plain
file nor directory is skipped; a file child whose name matches some files_exist pattern
bumps the matched-files counter, otherwise a directory child whose name matches some
dirs_exist pattern bumps the matched-dirs counter. -/
def matchStep (p : Pattern) (acc : Nat × Nat) (f : DirEntry) : Nat × Nat :=
if ¬(f.ty = FType.file ∨ f.ty = FType.dir) then acc
else if f.ty = FType.file ∧ p.files_exist.any (nameMatches f.name) then (acc.1 + 1, acc.2)
else if f.ty = FType.dir ∧ p.dirs_exist.any (nameMatches f.name) then (acc.1, acc.2 + 1)
else acc

/-- The entry loop of Pattern::match_dir: both counters start at zero and the children are
walked once. -/
def Pattern.structCounts (p : Pattern) (entries : List DirEntry) : Nat × Nat :=
entries.foldl (matchStep p) (0, 0)

/-- The command loop shared by Pattern::match_dir (over check_commands) and
Pattern::clean_dir (over clean_commands), instrumented with the list of commands actually
handed to run_command: run each command in order; a run_command error aborts with that
error, a non-success status stops with Ok false, and Ok true is returned when every
command succeeds. exec gives the observed spawn outcome of each command string when run
in the candidate directory. -/
def runChecksT (exec : String → Except IOErr ExitStatus) :
    List String → (Except IOErr Bool) × List String
| [] => (.ok true, [])
| c :: rest =>
  match run_command (exec c) with
  | .error e => (.error e, [c])
  | .ok st =>
    if st.success then
      let r := runChecksT exec rest
      (r.1, c :: r.2)
    else (.ok false, [c])

/-- Pattern::match_dir, instrumented with the list of spawned commands. rd is the result
of fs::read_dir on the candidate directory (its error case covers the read_dir and
per-entry failures, all of which the source propagates as the same io::Result error). -/
def Pattern.match_dirT (p : Pattern) (rd : Except IOErr (List DirEntry))
    (exec : String → Except IOErr ExitStatus) : (Except IOErr Bool) × List String :=
match rd with
| .error e => (.error e, [])
| .ok entries =>
  let counts := p.structCounts entries
  if counts.1 < p.files_exist.length ∨ counts.2 < p.dirs_exist.length then (.ok false, [])
  else runChecksT exec p.check_commands

/-- Pattern::match_dir proper: Ok true is Matched, Ok false is NoMatch, error is a
classification error. -/
def Pattern.match_dir (p : Pattern) (rd : Except IOErr (List DirEntry))
    (exec : String → Except IOErr ExitStatus) : Except IOErr Bool :=
(p.match_dirT rd exec).1

/-- Pattern::clean_dir, instrumented: the same command loop over clean_commands. -/
def Pattern.clean_dirT (p : Pattern) (exec : String → Except IOErr ExitStatus) :
    (Except IOErr Bool) × List String :=
runChecksT exec p.clean_commands

/-- The built Rust project rule from main. -/
def rust_proj : Pattern :=
  ⟨"built Rust project", [compiledMatcher cargoTomlRe], [compiledMatcher targetRe], [],
    ["cargo clean"]⟩

/-- The Makefile with clean target rule from main. -/
def makefile_clean_proj : Pattern :=
  ⟨"Makefile with clean target", [compiledMatcher makefileRe], [], ["make clean --dry-run"],
    ["make clean"]⟩

/-- The contains pycache rule from main. -/
def has_pycache : Pattern :=
  ⟨"contains __pycache__/", [], [compiledMatcher pycacheRe], [], ["rm -r __pycache__"]⟩

/-- The contains compiled python rule from main. -/
def has_compiled_pyth : Pattern :=
  ⟨"contains compiled python", [compiledMatcher compiledPyRe], [], [], ["rm *.pyc *.pyo"]⟩

/-- The git repo rule from main. -/
def git_repo : Pattern :=
  ⟨"git repo", [], [compiledMatcher dotGitRe], [], ["git gc --aggressive"]⟩

/-- The ninja rule from main. -/
def ninja_clean_proj : Pattern :=
  ⟨"build.ninja with clean target", [compiledMatcher buildNinjaRe], [], ["ninja clean -n"],
    ["ninja clean"]⟩

/-- The fixed rule list pats from main, in priority order. -/
def pats : List Pattern :=
  [rust_proj, makefile_clean_proj, has_pycache, has_compiled_pyth, git_repo, ninja_clean_proj]

/-- The declared regex of every required file-name or dir-name pattern of every built-in
rule, in the order the rules declare them. -/
def rulePatternRes : List Re :=
  [cargoTomlRe, targetRe, makefileRe, pycacheRe, compiledPyRe, dotGitRe, buildNinjaRe]

/-- Stated from the spec for comparison (claim C1): classification is Matched when every
required file pattern is matched by the name of some plain-file child, every required dir
pattern by the name of some subdirectory child, and every verify command exits with 0. -/
def specClassifyMatched (p : Pattern) (entries : List DirEntry)
    (exec : String → Except IOErr ExitStatus) : Prop :=
  (∀ m ∈ p.files_exist, ∃ e ∈ entries, e.ty = FType.file ∧ m e.name = true) ∧
  (∀ m ∈ p.dirs_exist, ∃ e ∈ entries, e.ty = FType.dir ∧ m e.name = true) ∧
  (∀ c ∈ p.check_commands, exec c = .ok (.exited 0))

/-- Stated from the spec for comparison (claim C4): the number of required file patterns
satisfied by at least one plain-file child name, and of required dir patterns satisfied by
at least one subdirectory child name (a child may count toward several patterns). -/
def specPatternsSatisfied (p : Pattern) (entries : List DirEntry) : Nat × Nat :=
  ((p.files_exist.filter
      (fun m => entries.any (fun e => e.ty == FType.file && nameMatches e.name m))).length,
   (p.dirs_exist.filter
      (fun m => entries.any (fun e => e.ty == FType.dir && nameMatches e.name m))).length)

/-- The number of plain-file children whose name satisfies at least one required file
pattern, and of subdirectory children whose name satisfies at least one required dir
pattern; each child is counted at most once even when its name satisfies several
patterns. This is what the entry loop of match_dir actually counts. -/
def childMatchCounts (p : Pattern) (entries : List DirEntry) : Nat × Nat :=
  ((entries.filter
      (fun e => e.ty == FType.file && p.files_exist.any (nameMatches e.name))).length,
   (entries.filter
      (fun e => e.ty == FType.dir && p.dirs_exist.any (nameMatches e.name))).length)

/-- The structural gate of match_dir in its child-counting form: at least as many matching
file children as required file patterns, and likewise for directories. -/
def structuralPass (p : Pattern) (entries : List DirEntry) : Prop :=
  p.files_exist.length ≤ (childMatchCounts p entries).1 ∧
  p.dirs_exist.length ≤ (childMatchCounts p entries).2

instance (p : Pattern) (entries : List DirEntry) : Decidable (structuralPass p entries) := by
  unfold structuralPass
  infer_instance

theorem structCounts_eq (p : Pattern) (entries : List DirEntry) :
    p.structCounts entries = childMatchCounts p entries := by
  have key : ∀ (es : List DirEntry) (acc : Nat × Nat),
      es.foldl (matchStep p) acc =
        (acc.1 + (childMatchCounts p es).1, acc.2 + (childMatchCounts p es).2) := by
    intro es
    induction es with
    | nil => intro acc; simp [childMatchCounts]
    | cons e rest ih =>
      intro acc
      rw [List.foldl_cons, ih]
      obtain ⟨nm, ty⟩ := e
      cases ty with
      | file =>
        by_cases hm : p.files_exist.any (nameMatches nm) = true
        · simp [childMatchCounts, matchStep, hm]
          omega
        · simp [childMatchCounts, matchStep, hm, Bool.eq_false_iff.mpr hm]
      | dir =>
        by_cases hm : p.dirs_exist.any (nameMatches nm) = true
        · simp [childMatchCounts, matchStep, hm]
          omega
        · simp [childMatchCounts, matchStep, hm, Bool.eq_false_iff.mpr hm]
      | other => simp [childMatchCounts, matchStep]
  rw [Pattern.structCounts, key entries (0, 0)]
  simp

theorem runChecksT_ok_true_iff (exec : String → Except IOErr ExitStatus) (cmds : List String) :
    (runChecksT exec cmds).1 = .ok true ↔
      ∀ c ∈ cmds, ∃ st, run_command (exec c) = .ok st ∧ st.success = true := by
  induction cmds with
  | nil => simp [runChecksT]
  | cons c rest ih =>
    cases hrc : run_command (exec c) with
    | error e =>
      rw [runChecksT, hrc]
      refine ⟨fun h => absurd h (by simp), fun h => ?_⟩
      rcases h c (List.mem_cons_self c rest) with ⟨st, hst, _⟩
      rw [hrc] at hst
      simp at hst
    | ok st =>
      by_cases hs : st.success = true
      · rw [runChecksT, hrc]
        simp only [hs, if_true]
        show (runChecksT exec rest).1 = .ok true ↔ _
        rw [ih]
        constructor
        · intro h c' hc'
          rcases List.mem_cons.mp hc' with rfl | hmem
          · exact ⟨st, hrc, hs⟩
          · exact h c' hmem
        · intro h c' hc'
          exact h c' (List.mem_cons_of_mem c hc')
      · have hs' : st.success = false := Bool.eq_false_iff.mpr hs
        rw [runChecksT, hrc]
        simp only [hs', if_false, Bool.false_eq_true]
        refine ⟨fun h => absurd h (by simp), fun h => ?_⟩
        rcases h c (List.mem_cons_self c rest) with ⟨st2, hst2, hsucc2⟩
        rw [hrc] at hst2
        cases hst2
        rw [hs'] at hsucc2
        simp at hsucc2

theorem runChecksT_stops (exec : String → Except IOErr ExitStatus) (pre : List String)
    (c : String) (post : List String)
    (hpre : ∀ c' ∈ pre, ∃ st, run_command (exec c') = .ok st ∧ st.success = true)
    (st : ExitStatus) (hc : run_command (exec c) = .ok st) (hf : st.success = false) :
    runChecksT exec (pre ++ c :: post) = (.ok false, pre ++ [c]) := by
  induction pre with
  | nil =>
    simp only [List.nil_append]
    rw [runChecksT, hc]
    simp [hf]
  | cons d rest ih =>
    rcases hpre d (List.mem_cons_self d rest) with ⟨std, hd, hds⟩
    have hrest : ∀ c' ∈ rest, ∃ st, run_command (exec c') = .ok st ∧ st.success = true :=
      fun c' hc' => hpre c' (List.mem_cons_of_mem d hc')
    rw [List.cons_append, runChecksT, hd]
    simp only [hds, if_true]
    rw [ih hrest]
    simp

/-- The environment a run of main observes: the result of fs::read_dir for every
directory path (a path is its list of components below the root), and the observed
spawn outcome of every command string when run in a given directory. -/
structure Env where
  readDir : List String → Except IOErr (List DirEntry)
  exec : List String → String → Except IOErr ExitStatus

/-- Observable events of the walker loop in main, in program order: popping a directory
off the stack, reporting a match of a rule on a directory, reporting a classification
error, a successful cleanup, a reported cleanup failure, enumerating a directory's
children and pushing its subdirectories, and the final summary line. -/
inductive Event
| visit (dir : List String)
| matchRep (rule : String) (dir : List String)
| matchErr (rule : String) (dir : List String)
| cleanOk (rule : String) (dir : List String)
| cleanFail (rule : String) (dir : List String)
| enumPush (dir : List String) (subdirs : List (List String))
| summary (cleaned matched : Nat)
deriving DecidableEq, Repr

/-- The per-directory rule loop of main: for each pattern in order, classify the
directory; Ok false moves on silently; an error is reported and breaks out of the rule
loop for this directory only; Ok true bumps the matched counter and reports the match,
then (unless dry_run) the clean commands run, bumping the cleaned counter on success
and reporting a cleanup failure otherwise. Returns the counter increments and the
events in program order. -/
def procRules (env : Env) (dryRun : Bool) (dir : List String) :
    List Pattern → Nat × Nat × List Event
| [] => (0, 0, [])
| p :: rest =>
  match (p.match_dirT (env.readDir dir) (env.exec dir)).1 with
  | .ok false => procRules env dryRun dir rest
  | .error _ => (0, 0, [.matchErr p.name dir])
  | .ok true =>
    if dryRun then
      let r := procRules env dryRun dir rest
      (r.1 + 1, r.2.1, .matchRep p.name dir :: r.2.2)
    else
      match (p.clean_dirT (env.exec dir)).1 with
      | .ok true =>
        let r := procRules env dryRun dir rest
        (r.1 + 1, r.2.1 + 1, .matchRep p.name dir :: .cleanOk p.name dir :: r.2.2)
      | .ok false =>
        let r := procRules env dryRun dir rest
        (r.1 + 1, r.2.1, .matchRep p.name dir :: .cleanFail p.name dir :: r.2.2)
      | .error _ =>
        let r := procRules env dryRun dir rest
        (r.1 + 1, r.2.1, .matchRep p.name dir :: .cleanFail p.name dir :: r.2.2)

/-- The subdirectory paths found when main enumerates dir to extend the stack, in
enumeration order. -/
def subdirsOf (dir : List String) (entries : List DirEntry) : List (List String) :=
(entries.filter (fun e => e.ty == FType.dir)).map (fun e => dir ++ [e.name])

/-- Outcome of the walker loop of main: normal completion with the final counters and the
event trace (the summary line is the last event); a panic at the unwrap of read_dir when
extending the stack (aborting the whole run, events up to that point retained); or fuel
exhaustion (never reached when the fuel bounds the visited tree). -/
inductive Outcome
| finished (nMatched nCleaned : Nat) (events : List Event)
| panicked (events : List Event)
| outOfFuel (events : List Event)
deriving DecidableEq, Repr

/-- The walker loop of main. The stack is kept top-first (head = next pop), so the Vec
push order of the source corresponds to prepending the reversed subdirectory list. Each
iteration pops a directory, runs the rule loop for it, then enumerates its children with
read_dir; on error that unwrap panics, otherwise every subdirectory is pushed. When the
stack empties, the summary line is printed once. -/
def walkLoop (env : Env) (ps : List Pattern) (dryRun : Bool) :
    Nat → List (List String) → Nat → Nat → List Event → Outcome
| _, [], nM, nC, evs => .finished nM nC (evs ++ [.summary nC nM])
| 0, _ :: _, _, _, evs => .outOfFuel evs
| fuel + 1, dir :: rest, nM, nC, evs =>
  let r := procRules env dryRun dir ps
  match env.readDir dir with
  | .error _ => .panicked (evs ++ .visit dir :: r.2.2)
  | .ok entries =>
    walkLoop env ps dryRun fuel (List.reverse (subdirsOf dir entries) ++ rest)
      (nM + r.1) (nC + r.2.1)
      (evs ++ .visit dir :: r.2.2 ++ [.enumPush dir (subdirsOf dir entries)])

/-- A whole run of the walker on a root directory. -/
def walkRun (env : Env) (ps : List Pattern) (dryRun : Bool) (root : List String)
    (fuel : Nat) : Outcome :=
walkLoop env ps dryRun fuel [root] 0 0 []

/-- The starts_with dash test of main's argument handling: whether the argument's first
character is a dash. -/
def startsWithDash (s : String) : Bool := s.toList.head? == some '-'

/-- The recognized flags of main's argument loop. -/
def recognizedFlag (s : String) : Bool :=
s == "-n" || s == "--dry-run" || s == "-v" || s == "--verbose" || s == "-l" || s == "--list"

/-- Outcome of the argument-handling phase of main: print usage and exit 1; print the
rule list and exit 0; or proceed into the traversal with the dry-run and verbose flags
and the root directory argument (whose metadata is checked afterwards). -/
inductive ArgsOutcome
| usageExit
| listExit
| proceed (dryRun verbose : Bool) (root : String)
deriving DecidableEq, Repr

/-- The argument-handling phase of main. args is the full argv, program name included.
With a single argument usage is printed; every argument that starts with a dash is
treated as a flag and an unrecognized one prints usage; the list flag prints the rules
and exits; otherwise exactly one non-flag argument besides the program name must remain,
the root directory. -/
def parseArgs (args : List String) : ArgsOutcome :=
if args.length == 1 then .usageExit
else if (args.filter startsWithDash).any (fun a => !recognizedFlag a) then .usageExit
else if (args.filter startsWithDash).any (fun a => a == "-l" || a == "--list") then .listExit
else
  match (args.drop 1).filter (fun s => !startsWithDash s) with
  | [root] =>
    .proceed ((args.filter startsWithDash).any (fun a => a == "-n" || a == "--dry-run"))
      ((args.filter startsWithDash).any (fun a => a == "-v" || a == "--verbose")) root
  | _ => .usageExit

instance {ε α : Type} [DecidableEq ε] [DecidableEq α] : DecidableEq (Except ε α) := fun x y =>
match x, y with
| .ok a, .ok b =>
  if h : a = b then .isTrue (by rw [h]) else .isFalse (by intro hh; cases hh; exact h rfl)
| .error a, .error b =>
  if h : a = b then .isTrue (by rw [h]) else .isFalse (by intro hh; cases hh; exact h rfl)
| .ok _, .error _ => .isFalse (by intro hh; cases hh)
| .error _, .ok _ => .isFalse (by intro hh; cases hh)

/-- Claim C6: a verify or clean command whose wall-clock duration exceeds the enforced
10-second timeout (the 5-second kill grace does not change the reported status) is
surfaced by run_command as the distinct TimedOut error: never an ordinary success and
never an ordinary non-zero-exit failure. -/
theorem c6_timeout_distinct_error (b : CmdBehavior) (hd : 10 < b.duration) :
    run_command (.ok (timeoutWrapper 10 b)) = .error (.timedOut "Command timed out (10s)") ∧
    ∀ st : ExitStatus, run_command (.ok (timeoutWrapper 10 b)) ≠ .ok st := by
  have h : run_command (.ok (timeoutWrapper 10 b)) = .error (.timedOut "Command timed out (10s)") := by
    rw [timeoutWrapper, if_pos hd]
    rfl
  exact ⟨h, fun st hst => by rw [h] at hst; cases hst⟩

/-- Claim C6 witness: an 11-second command is reported as the TimedOut error. -/
theorem c6_witness :
    run_command (.ok (timeoutWrapper 10 ⟨11, .exited 0⟩)) =
      .error (.timedOut "Command timed out (10s)") :=
  (c6_timeout_distinct_error ⟨11, .exited 0⟩ (by decide)).1

/-- Claim C9: run_command cannot tell a genuine timeout from a command that itself exits
with status 124: a command that completes within the limit but whose observed exit status
has code 124 is also reported as the TimedOut error. -/
theorem c9_exit_124_timedout (b : CmdBehavior) (hd : b.duration ≤ 10)
    (hr : b.result.code = some 124) :
    run_command (.ok (timeoutWrapper 10 b)) = .error (.timedOut "Command timed out (10s)") := by
  rw [timeoutWrapper, if_neg (by omega)]
  rw [run_command]
  rw [if_pos hr]

/-- Claim C9 witness: a one-second command exiting 124 is reported as TimedOut. -/
theorem c9_witness :
    run_command (.ok (timeoutWrapper 10 ⟨1, .exited 124⟩)) =
      .error (.timedOut "Command timed out (10s)") :=
  c9_exit_124_timedout ⟨1, .exited 124⟩ (by decide) (by decide)

/-- Claim C10: every argv entry that begins with a dash, at any position, is parsed as a
flag; an unrecognized one makes main print usage and exit with code 1, and a dash-leading
argument is never accepted as the root directory (there is no double-dash separator). -/
theorem c10_dash_args (args : List String) :
    (∀ a ∈ args, startsWithDash a = true → recognizedFlag a = false →
      parseArgs args = .usageExit) ∧
    (∀ d v root, parseArgs args = .proceed d v root → startsWithDash root = false) := by
  constructor
  · intro a ha hdash hrec
    rw [parseArgs]
    by_cases hlen : (args.length == 1) = true
    · rw [if_pos hlen]
    · rw [if_neg hlen]
      have hmem : a ∈ args.filter startsWithDash :=
        List.mem_filter.mpr ⟨ha, hdash⟩
      have hany : (args.filter startsWithDash).any (fun a => !recognizedFlag a) = true :=
        List.any_eq_true.mpr ⟨a, hmem, by rw [hrec]; rfl⟩
      rw [if_pos hany]
  · intro d v root h
    rw [parseArgs] at h
    by_cases hlen : (args.length == 1) = true
    · rw [if_pos hlen] at h; cases h
    · rw [if_neg hlen] at h
      by_cases hany : ((args.filter startsWithDash).any (fun a => !recognizedFlag a)) = true
      · rw [if_pos hany] at h; cases h
      · rw [if_neg hany] at h
        by_cases hlist : ((args.filter startsWithDash).any
            (fun a => a == "-l" || a == "--list")) = true
        · rw [if_pos hlist] at h; cases h
        · rw [if_neg hlist] at h
          cases hm : (args.drop 1).filter (fun s => !startsWithDash s) with
          | nil => rw [hm] at h; cases h
          | cons r rest =>
            cases rest with
            | nil =>
              rw [hm] at h
              cases h
              have hrmem : root ∈ (args.drop 1).filter (fun s => !startsWithDash s) := by
                rw [hm]; exact List.mem_singleton.mpr rfl
              have := (List.mem_filter.mp hrmem).2
              simpa using this
            | cons r2 rest2 => rw [hm] at h; cases h

/-- Claim C10 witness: the unrecognized dash argument -x makes main exit with usage, and
a run that does proceed has a root not starting with a dash. -/
theorem c10_witness :
    parseArgs ["deepclean", "-x", "d"] = .usageExit ∧ startsWithDash "d" = false :=
  ⟨(c10_dash_args ["deepclean", "-x", "d"]).1 "-x" (by decide) (by decide) (by decide),
   (c10_dash_args ["deepclean", "d"]).2 false false "d" (by decide)⟩

/-- Claim C8: every required file-name or dir-name pattern of every built-in rule is
compiled through str_to_regex, anchored as caret-group-dollar around the declared
pattern: the compiled pattern matches a span of a child name only when that span is the
entire name — never a proper substring — and searching a name for the compiled pattern
succeeds exactly when the declared pattern matches the whole name. -/
theorem c8_patterns_anchored (r : Re) (hr : r ∈ rulePatternRes) (s : String) :
    (∀ i j, Sp s.toList (str_to_regex r) i j → i = 0 ∧ j = s.toList.length) ∧
    (isMatchSem (str_to_regex r) s ↔ matchE r s = true) := by
  have hA : r.noAnchor = true := by
    have hall : ∀ x ∈ rulePatternRes, x.noAnchor = true := by decide
    exact hall r hr
  refine ⟨fun i j h => ?_, is_match_str_to_regex r hA s⟩
  rcases sp_str_to_regex h with ⟨hi, hj, _⟩
  exact ⟨hi, hj⟩

/-- Claim C8 witness: the compiled pattern of target searches successfully in the name
target itself. -/
theorem c8_witness : isMatchSem (str_to_regex targetRe) "target" :=
  ((c8_patterns_anchored targetRe (by decide) "target").2).mpr (by decide)

theorem match_dirT_ok (p : Pattern) (entries : List DirEntry)
    (exec : String → Except IOErr ExitStatus) :
    p.match_dirT (.ok entries) exec =
      if (p.structCounts entries).1 < p.files_exist.length ∨
         (p.structCounts entries).2 < p.dirs_exist.length then (.ok false, [])
      else runChecksT exec p.check_commands := rfl

theorem run_command_ok (st : ExitStatus) :
    run_command (.ok st) =
      if st.code = some 124 then .error (.timedOut "Command timed out (10s)") else .ok st := rfl

/-- A rule with the two required file patterns a-dot-star and b-dot-star and no commands:
a Pattern value main could be configured with. -/
def twoFilePats : Pattern :=
  ⟨"two file pats",
    [compiledMatcher (.cat (.chr 'a') (.star .dotAny)),
     compiledMatcher (.cat (.chr 'b') (.star .dotAny))], [], [], []⟩

/-- The same two required file patterns plus one verify command. -/
def twoFilePatsCheck : Pattern :=
  ⟨"two file pats with check",
    [compiledMatcher (.cat (.chr 'a') (.star .dotAny)),
     compiledMatcher (.cat (.chr 'b') (.star .dotAny))], [], ["true"], []⟩

/-- A rule with no structural requirements and a single verify command. -/
def oneCheckPat : Pattern := ⟨"one check", [], [], ["badcmd"], []⟩

/-- A directory whose children are exactly the two plain files a1 and a2. -/
def twoAFiles : List DirEntry := [⟨"a1", .file⟩, ⟨"a2", .file⟩]

/-- A rule with the two overlapping required file patterns a-dot-star and dot-star-b. -/
def overlapFilePats : Pattern :=
  ⟨"overlapping file pats",
    [compiledMatcher (.cat (.chr 'a') (.star .dotAny)),
     compiledMatcher (.cat (.star .dotAny) (.chr 'b'))], [], [], []⟩

/-- A directory whose only child is the plain file ab. -/
def abFileOnly : List DirEntry := [⟨"ab", .file⟩]

/-- A command environment in which every spawn reports exit status 0. -/
def execAllZero : String → Except IOErr ExitStatus := fun _ => .ok (.exited 0)

/-- A command environment in which every spawn reports exit status 124. -/
def execAll124 : String → Except IOErr ExitStatus := fun _ => .ok (.exited 124)

/-- A command environment in which every spawn reports exit status 1. -/
def execAllOne : String → Except IOErr ExitStatus := fun _ => .ok (.exited 1)

/-- Claim C1 counterexample: a rule requiring the file patterns a-dot-star and b-dot-star
classifies the directory holding exactly the plain files a1 and a2 as Matched, although
the pattern b-dot-star is matched by no child at all — the entry loop counts matching
children, not satisfied patterns, so Matched is not equivalent to every pattern being
matched by some child. -/
theorem c1_counterexample :
    twoFilePats.match_dir (.ok twoAFiles) execAllZero = .ok true ∧
    ¬ specClassifyMatched twoFilePats twoAFiles execAllZero := by
  constructor
  · decide
  · intro hspec
    have hf := hspec.1
    revert hf
    decide

/-- Claim C1 amended: match_dir returns Matched iff the number of plain-file children
matching at least one required file pattern reaches the number of required file patterns,
the number of subdirectory children matching at least one required dir pattern reaches
the number of required dir patterns, and every verify command run through run_command
reports success. -/
theorem c1_amended (p : Pattern) (entries : List DirEntry)
    (exec : String → Except IOErr ExitStatus) :
    p.match_dir (.ok entries) exec = .ok true ↔
      (p.files_exist.length ≤ (childMatchCounts p entries).1 ∧
       p.dirs_exist.length ≤ (childMatchCounts p entries).2 ∧
       ∀ c ∈ p.check_commands, ∃ st, run_command (exec c) = .ok st ∧ st.success = true) := by
  show (p.match_dirT (.ok entries) exec).1 = .ok true ↔ _
  rw [match_dirT_ok, structCounts_eq]
  by_cases hgate : (childMatchCounts p entries).1 < p.files_exist.length ∨
      (childMatchCounts p entries).2 < p.dirs_exist.length
  · rw [if_pos hgate]
    constructor
    · intro h; cases h
    · rintro ⟨h1, h2, _⟩
      exfalso
      rcases hgate with hg | hg
      · omega
      · omega
  · rw [if_neg hgate]
    push_neg at hgate
    rw [runChecksT_ok_true_iff]
    exact ⟨fun h => ⟨hgate.1, hgate.2, h⟩, fun h => h.2.2⟩

/-- Claim C1 witness: the built Rust project rule matches a directory containing the
plain file Cargo.toml and the subdirectory target. -/
theorem c1_witness :
    rust_proj.match_dir (.ok [⟨"Cargo.toml", .file⟩, ⟨"target", .dir⟩]) execAllZero =
      .ok true :=
  (c1_amended rust_proj [⟨"Cargo.toml", .file⟩, ⟨"target", .dir⟩] execAllZero).mpr
    ⟨by decide, by decide, fun c hc => absurd hc (List.not_mem_nil c)⟩

/-- Claim C4 counterexample: with the required file patterns a-dot-star and dot-star-b,
the single plain file ab satisfies both patterns, so the number of satisfied patterns
reaches the number of required patterns, yet the structural check fails and match_dir
returns NoMatch: the loop performs distinct-child accounting, counting matching children
(here one), not satisfied patterns. -/
theorem c4_counterexample :
    overlapFilePats.files_exist.length ≤
      (specPatternsSatisfied overlapFilePats abFileOnly).1 ∧
    overlapFilePats.dirs_exist.length ≤
      (specPatternsSatisfied overlapFilePats abFileOnly).2 ∧
    overlapFilePats.match_dir (.ok abFileOnly) execAllZero = .ok false := by
  decide

/-- Claim C4 amended: the structural check counts, for each plain-file or subdirectory
child, whether its name satisfies at least one required pattern of its type — a child
counts at most once even when its name satisfies several patterns — and it passes exactly
when the matching-children counts reach the numbers of required patterns: on failure
match_dir returns NoMatch, on success classification is exactly the verify-command loop. -/
theorem c4_amended (p : Pattern) (entries : List DirEntry)
    (exec : String → Except IOErr ExitStatus) :
    p.structCounts entries = childMatchCounts p entries ∧
    (¬ structuralPass p entries → p.match_dir (.ok entries) exec = .ok false) ∧
    (structuralPass p entries →
      p.match_dir (.ok entries) exec = (runChecksT exec p.check_commands).1) := by
  refine ⟨structCounts_eq p entries, ?_, ?_⟩
  · intro h
    have hgate : (childMatchCounts p entries).1 < p.files_exist.length ∨
        (childMatchCounts p entries).2 < p.dirs_exist.length := by
      by_contra hc
      push_neg at hc
      exact h ⟨hc.1, hc.2⟩
    show (p.match_dirT (.ok entries) exec).1 = .ok false
    rw [match_dirT_ok, structCounts_eq, if_pos hgate]
  · intro h
    obtain ⟨h1, h2⟩ := h
    have hgate : ¬((childMatchCounts p entries).1 < p.files_exist.length ∨
        (childMatchCounts p entries).2 < p.dirs_exist.length) := by
      rintro (hg | hg) <;> omega
    show (p.match_dirT (.ok entries) exec).1 = (runChecksT exec p.check_commands).1
    rw [match_dirT_ok, structCounts_eq, if_neg hgate]

/-- Claim C4 witness: the pycache rule, requiring one subdirectory pattern, does not
match an empty directory. -/
theorem c4_witness : has_pycache.match_dir (.ok []) execAllZero = .ok false :=
  (c4_amended has_pycache [] execAllZero).2.1 (by decide)

/-- Claim C7 counterexample. First half: with required file patterns a-dot-star and
b-dot-star not all satisfied by the directory of files a1 and a2, match_dir nevertheless
spawns its verify command instead of returning NoMatch immediately. Second half: a verify
command whose observed exit status is the non-zero 124 does not yield the ordinary
NoMatch but a TimedOut error. -/
theorem c7_counterexample :
    ((twoFilePatsCheck.match_dirT (.ok twoAFiles) execAllZero).2 ≠ [] ∧
      ¬ (∀ m ∈ twoFilePatsCheck.files_exist,
          ∃ e ∈ twoAFiles, e.ty = FType.file ∧ m e.name = true)) ∧
    (oneCheckPat.match_dirT (.ok []) execAll124).1 =
      .error (.timedOut "Command timed out (10s)") := by
  decide

/-- Claim C7 amended: when the child-count structural gate fails, match_dir returns
NoMatch immediately and spawns no subprocess; and when the gate passes, a verify command
whose observed exit status is non-zero (and not 124, which run_command converts into a
TimedOut error) yields the ordinary NoMatch, with the commands after it never spawned. -/
theorem c7_amended (p : Pattern) (entries : List DirEntry)
    (exec : String → Except IOErr ExitStatus) :
    (¬ structuralPass p entries → p.match_dirT (.ok entries) exec = (.ok false, [])) ∧
    (structuralPass p entries →
      ∀ pre c post, p.check_commands = pre ++ c :: post →
        (∀ c' ∈ pre, ∃ st, run_command (exec c') = .ok st ∧ st.success = true) →
        ∀ st, exec c = .ok st → st.success = false → st.code ≠ some 124 →
          p.match_dirT (.ok entries) exec = (.ok false, pre ++ [c])) := by
  constructor
  · intro h
    have hgate : (childMatchCounts p entries).1 < p.files_exist.length ∨
        (childMatchCounts p entries).2 < p.dirs_exist.length := by
      by_contra hc
      push_neg at hc
      exact h ⟨hc.1, hc.2⟩
    rw [match_dirT_ok, structCounts_eq, if_pos hgate]
  · intro h pre c post hcmds hpre st hexec hfail h124
    obtain ⟨h1, h2⟩ := h
    have hgate : ¬((childMatchCounts p entries).1 < p.files_exist.length ∨
        (childMatchCounts p entries).2 < p.dirs_exist.length) := by
      rintro (hg | hg) <;> omega
    have hrc : run_command (exec c) = .ok st := by
      rw [hexec, run_command_ok, if_neg h124]
    rw [match_dirT_ok, structCounts_eq, if_neg hgate, hcmds]
    exact runChecksT_stops exec pre c post hpre st hrc hfail

/-- Claim C7 witness: a verify command with observed exit status 1 yields NoMatch with
only that command spawned. -/
theorem c7_witness : oneCheckPat.match_dirT (.ok []) execAllOne = (.ok false, ["badcmd"]) :=
  (c7_amended oneCheckPat [] execAllOne).2 (by decide) [] "badcmd" [] rfl
    (fun c' hc' => absurd hc' (List.not_mem_nil c')) (.exited 1) rfl (by decide) (by decide)

/-- Whether an event is produced by the per-directory rule loop (a match report, a
classification error report, or a cleanup outcome), as opposed to the traversal
bookkeeping events. -/
def isRuleEvent : Event → Bool
| .matchRep _ _ => true
| .matchErr _ _ => true
| .cleanOk _ _ => true
| .cleanFail _ _ => true
| _ => false

theorem procRules_events (env : Env) (dryRun : Bool) (dir : List String) :
    ∀ ps : List Pattern, ∀ e ∈ (procRules env dryRun dir ps).2.2, isRuleEvent e = true := by
  intro ps
  induction ps with
  | nil => intro e he; cases he
  | cons p rest ih =>
    intro e he
    rw [procRules] at he
    split at he
    · exact ih e he
    · simp only [List.mem_singleton] at he
      rw [he]
      rfl
    · split at he
      · simp only [List.mem_cons] at he
        rcases he with rfl | he'
        · rfl
        · exact ih e he'
      · split at he
        all_goals
          simp only [List.mem_cons] at he
          rcases he with rfl | rfl | he'
          · rfl
          · rfl
          · exact ih e he'

/-- An environment whose every directory is empty and every command succeeds. -/
def envEmptyFS : Env := ⟨fun _ => .ok [], fun _ _ => .ok (.exited 0)⟩

/-- Claim C5: one iteration of the walker on a directory whose enumeration succeeds first
produces the whole rule loop's events (classification reports and any cleanup outcomes),
then as its final action enumerates the children once and pushes exactly the
subdirectories found onto the frontier — whatever the rule outcomes, the command results
and the dry-run setting are, so the traversal never prunes based on match results. -/
theorem c5_enum_after_rules (env : Env) (ps : List Pattern) (dryRun : Bool) (fuel : Nat)
    (dir : List String) (rest : List (List String)) (nM nC : Nat) (evs : List Event)
    (entries : List DirEntry) (hrd : env.readDir dir = .ok entries) :
    walkLoop env ps dryRun (fuel + 1) (dir :: rest) nM nC evs =
      walkLoop env ps dryRun fuel ((subdirsOf dir entries).reverse ++ rest)
        (nM + (procRules env dryRun dir ps).1) (nC + (procRules env dryRun dir ps).2.1)
        (evs ++ .visit dir :: (procRules env dryRun dir ps).2.2 ++
          [.enumPush dir (subdirsOf dir entries)]) ∧
    (∀ e ∈ (procRules env dryRun dir ps).2.2, isRuleEvent e = true) := by
  constructor
  · rw [walkLoop, hrd]
  · exact procRules_events env dryRun dir ps

/-- Claim C5 witness: the iteration equation and the rule-event property at a concrete
one-directory environment. -/
theorem c5_witness :
    (walkLoop envEmptyFS pats false 4 [["r"]] 0 0 [] =
      walkLoop envEmptyFS pats false 3 ((subdirsOf ["r"] []).reverse ++ [])
        (0 + (procRules envEmptyFS false ["r"] pats).1)
        (0 + (procRules envEmptyFS false ["r"] pats).2.1)
        ([] ++ .visit ["r"] :: (procRules envEmptyFS false ["r"] pats).2.2 ++
          [.enumPush ["r"] (subdirsOf ["r"] [])])) ∧
    (∀ e ∈ (procRules envEmptyFS false ["r"] pats).2.2, isRuleEvent e = true) :=
  c5_enum_after_rules envEmptyFS pats false 3 ["r"] [] 0 0 [] [] rfl

/-- Whether an event is a reported (directory, rule) match. -/
def isMatchRepEvent : Event → Bool
| .matchRep _ _ => true
| _ => false

/-- Whether an event is a successful (directory, rule) cleanup. -/
def isCleanOkEvent : Event → Bool
| .cleanOk _ _ => true
| _ => false

/-- Whether an event is the final summary line. -/
def isSummaryEvent : Event → Bool
| .summary _ _ => true
| _ => false

/-- The distinct directories reported matched in a trace. -/
def matchedDirs (evs : List Event) : List (List String) :=
(evs.filterMap (fun e => match e with | .matchRep _ d => some d | _ => none)).dedup

theorem procRules_counts (env : Env) (dryRun : Bool) (dir : List String) :
    ∀ ps : List Pattern,
      (procRules env dryRun dir ps).1 =
        ((procRules env dryRun dir ps).2.2.filter isMatchRepEvent).length ∧
      (procRules env dryRun dir ps).2.1 =
        ((procRules env dryRun dir ps).2.2.filter isCleanOkEvent).length := by
  intro ps
  induction ps with
  | nil => exact ⟨rfl, rfl⟩
  | cons p rest ih =>
    rw [procRules]
    split
    · exact ih
    · exact ⟨rfl, rfl⟩
    · split
      · simpa [isMatchRepEvent, isCleanOkEvent] using ih
      · split
        all_goals simpa [isMatchRepEvent, isCleanOkEvent] using ih

theorem walkLoop_finished (env : Env) (ps : List Pattern) (dryRun : Bool) :
    ∀ (fuel : Nat) (stk : List (List String)) (nM nC : Nat) (evs : List Event)
      (nM' nC' : Nat) (evs' : List Event),
      walkLoop env ps dryRun fuel stk nM nC evs = .finished nM' nC' evs' →
      ∃ delta, evs' = evs ++ delta ∧
        nM' = nM + (delta.filter isMatchRepEvent).length ∧
        nC' = nC + (delta.filter isCleanOkEvent).length ∧
        delta.filter isSummaryEvent = [.summary nC' nM'] ∧
        delta.getLast? = some (.summary nC' nM') := by
  intro fuel
  induction fuel with
  | zero =>
    intro stk nM nC evs nM' nC' evs' h
    cases stk with
    | nil =>
      rw [walkLoop] at h
      cases h
      refine ⟨[.summary nC nM], rfl, by simp [isMatchRepEvent], by simp [isCleanOkEvent],
        by simp [isSummaryEvent], rfl⟩
    | cons dir rest =>
      rw [walkLoop] at h
      cases h
  | succ fuel ih =>
    intro stk nM nC evs nM' nC' evs' h
    cases stk with
    | nil =>
      rw [walkLoop] at h
      cases h
      refine ⟨[.summary nC nM], rfl, by simp [isMatchRepEvent], by simp [isCleanOkEvent],
        by simp [isSummaryEvent], rfl⟩
    | cons dir rest =>
      rw [walkLoop] at h
      cases hrd : env.readDir dir with
      | error e =>
        rw [hrd] at h
        cases h
      | ok entries =>
        rw [hrd] at h
        obtain ⟨delta', hevs, hM, hC, hsum, hlast⟩ := ih _ _ _ _ _ _ _ h
        have hne : delta' ≠ [] := by
          intro h0
          rw [h0] at hsum
          cases hsum
        refine ⟨.visit dir :: (procRules env dryRun dir ps).2.2 ++
          [.enumPush dir (subdirsOf dir entries)] ++ delta', ?_, ?_, ?_, ?_, ?_⟩
        · rw [hevs]
          simp
        · have hpc := (procRules_counts env dryRun dir ps).1
          rw [hM]
          simp only [List.cons_append, List.filter_cons, List.filter_append]
          simp [isMatchRepEvent, hpc]
          omega
        · have hpc := (procRules_counts env dryRun dir ps).2
          rw [hC]
          simp only [List.cons_append, List.filter_cons, List.filter_append]
          simp [isCleanOkEvent, hpc]
          omega
        · have hnosum : ∀ e ∈ (procRules env dryRun dir ps).2.2, isSummaryEvent e = false := by
            intro e he
            have := procRules_events env dryRun dir ps e he
            cases e <;> simp_all [isRuleEvent, isSummaryEvent]
          simp only [List.cons_append, List.filter_cons, List.filter_append]
          rw [List.filter_eq_nil_iff.mpr (fun a ha => by rw [hnosum a ha]; simp)]
          simpa [isSummaryEvent] using hsum
        · rw [List.cons_append, List.getLast?_append_of_ne_nil _ hne]
          exact hlast

/-- Claim C3 amended: when a run finishes, the matched counter equals the number of
reported (directory, rule) match events — a directory matching k rules contributes k, not
one — and the cleaned counter equals the number of successful (directory, rule) cleanup
events; both are accumulated across the whole traversal and the summary carrying exactly
these two counters is emitted once, as the last event. -/
theorem c3_amended (env : Env) (ps : List Pattern) (dryRun : Bool) (root : List String)
    (fuel : Nat) (nM nC : Nat) (evs : List Event)
    (h : walkRun env ps dryRun root fuel = .finished nM nC evs) :
    nM = (evs.filter isMatchRepEvent).length ∧
    nC = (evs.filter isCleanOkEvent).length ∧
    evs.filter isSummaryEvent = [.summary nC nM] ∧
    evs.getLast? = some (.summary nC nM) := by
  obtain ⟨delta, hevs, hM, hC, hsum, hlast⟩ :=
    walkLoop_finished env ps dryRun fuel [root] 0 0 [] nM nC evs h
  rw [List.nil_append] at hevs
  subst hevs
  exact ⟨by simpa using hM, by simpa using hC, hsum, hlast⟩

/-- Filesystem of the double-match scenario: the root r contains the plain file
Cargo.toml and the subdirectories target and .git, so the Rust rule and the git rule both
match the single directory r; every other directory is empty. -/
def fsDouble : List String → Except IOErr (List DirEntry)
| ["r"] => .ok [⟨"Cargo.toml", .file⟩, ⟨"target", .dir⟩, ⟨".git", .dir⟩]
| _ => .ok []

/-- The double-match environment, with every command reporting success. -/
def envDouble : Env := ⟨fsDouble, fun _ _ => .ok (.exited 0)⟩

/-- Claim C3 counterexample: in the dry run over the double-match tree the final summary
reports two matches, although only one distinct directory matched any rule — the matched
counter counts (directory, rule) pairs, not directories. -/
theorem c3_counterexample :
    walkRun envDouble pats true ["r"] 10 = .finished 2 0
      [.visit ["r"], .matchRep "built Rust project" ["r"], .matchRep "git repo" ["r"],
       .enumPush ["r"] [["r", "target"], ["r", ".git"]],
       .visit ["r", ".git"], .enumPush ["r", ".git"] [],
       .visit ["r", "target"], .enumPush ["r", "target"] [],
       .summary 0 2] ∧
    (matchedDirs
      [.visit ["r"], .matchRep "built Rust project" ["r"], .matchRep "git repo" ["r"],
       .enumPush ["r"] [["r", "target"], ["r", ".git"]],
       .visit ["r", ".git"], .enumPush ["r", ".git"] [],
       .visit ["r", "target"], .enumPush ["r", "target"] [],
       .summary 0 2]).length = 1 ∧
    (2 : Nat) ≠ 1 := by
  refine ⟨by decide, by decide, by decide⟩

/-- Claim C3 witness: the counter-trace agreement at a concrete finished run. -/
theorem c3_witness :
    (0 : Nat) = ([Event.visit ["r"], Event.enumPush ["r"] [],
      Event.summary 0 0].filter isMatchRepEvent).length ∧
    (0 : Nat) = ([Event.visit ["r"], Event.enumPush ["r"] [],
      Event.summary 0 0].filter isCleanOkEvent).length ∧
    ([Event.visit ["r"], Event.enumPush ["r"] [],
      Event.summary 0 0].filter isSummaryEvent) = [.summary 0 0] ∧
    ([Event.visit ["r"], Event.enumPush ["r"] [], Event.summary 0 0].getLast?) =
      some (.summary 0 0) :=
  c3_amended envEmptyFS pats false ["r"] 2 0 0
    [.visit ["r"], .enumPush ["r"] [], .summary 0 0] (by decide)

/-- Filesystem of the fault-isolation scenario: the root r contains the subdirectories
good and bad, in that enumeration order; reading the entries of bad fails with a
permission error; good is empty. -/
def fsPermDenied : List String → Except IOErr (List DirEntry)
| ["r"] => .ok [⟨"good", .dir⟩, ⟨"bad", .dir⟩]
| ["r", "bad"] => .error (.otherErr "permission denied")
| _ => .ok []

/-- The fault-isolation environment, with every command reporting success. -/
def envPermDenied : Env := ⟨fsPermDenied, fun _ _ => .ok (.exited 0)⟩

/-- Claim C2 failing run: because bad is pushed after good, it is popped first; its
classification error is reported, but the subsequent read_dir unwrap in the traversal
loop panics on the same enumeration failure, so the whole run aborts and the healthy
sibling good is never visited or evaluated. -/
theorem c2_panic_aborts_traversal :
    walkRun envPermDenied [has_pycache] false ["r"] 10 =
      .panicked [.visit ["r"], .enumPush ["r"] [["r", "good"], ["r", "bad"]],
        .visit ["r", "bad"], .matchErr "contains __pycache__/" ["r", "bad"]] ∧
    Event.visit ["r", "good"] ∉
      [Event.visit ["r"], Event.enumPush ["r"] [["r", "good"], ["r", "bad"]],
        Event.visit ["r", "bad"], Event.matchErr "contains __pycache__/" ["r", "bad"]] := by
  refine ⟨by decide, by decide⟩

end Deepclean
